import Mathlib

/-!
Verification of the `aws_dyn_dns` dynamic-DNS updater (`main.py`).

The embedding models the program over `List Char` / `String`:
* `stripChars` embeds Python's `str.strip()`, over the full Unicode
  whitespace set Python strips (`pySpaceChars`); the stripping inside
  `int()` uses its own, slightly smaller set (`intSpaceChars`);
* `splitDot` embeds Python's `str.split('.')`;
* `pyIntChars` embeds Python's `int(s)` in base 10: surrounding
  whitespace and one leading sign are tolerated, and single underscores
  are allowed between digits.  Digits are restricted to ASCII `0-9`:
  CPython additionally accepts Unicode decimal digits (e.g. Arabic-Indic),
  so theorems about parse *failure* are stated for ASCII segments only,
  where the embedding and CPython agree;
* `_validate_ip_v4` embeds the validator of the same name;
* `runStages` / `runMain` embed the `__main__` orchestration over an
  environment `Env` supplying the results of the external calls (config
  files, the echo endpoint, and the Route 53 API).
-/

namespace AwsDynDns

/-- Decidable equality for `Except`, used to evaluate the embedded
functions on concrete inputs. -/
instance {ε α : Type} [DecidableEq ε] [DecidableEq α] : DecidableEq (Except ε α) := fun x y =>
  match x, y with
  | .ok a, .ok b =>
    if h : a = b then .isTrue (by rw [h]) else .isFalse (by intro hc; cases hc; exact h rfl)
  | .error a, .error b =>
    if h : a = b then .isTrue (by rw [h]) else .isFalse (by intro hc; cases hc; exact h rfl)
  | .ok _, .error _ => .isFalse (by intro hc; cases hc)
  | .error _, .ok _ => .isFalse (by intro hc; cases hc)

/-- The characters `str.strip()` removes: the Unicode whitespace set
(categories Zs/Zl/Zp and bidirectional classes WS/B/S). -/
def pySpaceChars : List Char :=
  ['\t', '\n', '\x0b', '\x0c', '\r', '\x1c', '\x1d', '\x1e', '\x1f', ' ',
   '\x85', '\xa0', '\u1680', '\u2000', '\u2001', '\u2002', '\u2003', '\u2004',
   '\u2005', '\u2006', '\u2007', '\u2008', '\u2009', '\u200a', '\u2028',
   '\u2029', '\u202f', '\u205f', '\u3000']

/-- Whether `str.strip()` treats `c` as whitespace. -/
def isPySpace (c : Char) : Bool := decide (c ∈ pySpaceChars)

/-- The characters `int()` tolerates around a numeric literal.  This is
`pySpaceChars` minus the four separator controls `\x1c`-`\x1f`, which
`str.strip()` removes but `int()` rejects (CPython 3.11:
`"5\x1c".strip() == "5"` yet `int("5\x1c")` raises `ValueError`). -/
def intSpaceChars : List Char :=
  ['\t', '\n', '\x0b', '\x0c', '\r', ' ',
   '\x85', '\xa0', '\u1680', '\u2000', '\u2001', '\u2002', '\u2003', '\u2004',
   '\u2005', '\u2006', '\u2007', '\u2008', '\u2009', '\u200a', '\u2028',
   '\u2029', '\u202f', '\u205f', '\u3000']

/-- Whether `int()` treats `c` as strippable whitespace. -/
def isIntSpace (c : Char) : Bool := decide (c ∈ intSpaceChars)

/-- Strip leading and trailing characters satisfying `p`. -/
def stripWith (p : Char → Bool) (cs : List Char) : List Char :=
  ((cs.dropWhile p).reverse.dropWhile p).reverse

/-- Embedding of `str.strip()`: remove leading and trailing whitespace. -/
def stripChars (cs : List Char) : List Char := stripWith isPySpace cs

/-- The stripping `int()` performs on its argument. -/
def stripIntChars (cs : List Char) : List Char := stripWith isIntSpace cs

/-- Embedding of `str.split('.')`: split on every occurrence of `'.'`,
keeping empty pieces (`"".split('.') == ['']`, `"1.".split('.') == ['1','']`). -/
def splitDot : List Char → List (List Char)
  | [] => [[]]
  | c :: cs =>
    if c = '.' then [] :: splitDot cs
    else
      match splitDot cs with
      | [] => [[c]]
      | s :: rest => (c :: s) :: rest

/-- Embedding of `'.'.join(...)`. -/
def joinDot : List (List Char) → List Char
  | [] => []
  | [s] => s
  | s :: rest => s ++ '.' :: joinDot rest

/-- Numeric value of an ASCII digit character. -/
def digitVal (c : Char) : Nat := c.toNat - 48

/-- Digit-run accumulator for `pyIntChars`: Python's `int` accepts single
underscores between digits (`"1_0"`), but not leading, trailing or doubled
underscores.  `prevDigit` records whether the previous character was a
digit, so an underscore is accepted only right after a digit and the run
may only end on a digit. -/
def pyDigitsGo (acc : Nat) (prevDigit : Bool) : List Char → Option Nat
  | [] => if prevDigit then some acc else none
  | c :: cs =>
    if c.isDigit then pyDigitsGo (10 * acc + digitVal c) true cs
    else if c = '_' ∧ prevDigit = true then pyDigitsGo acc false cs
    else none

/-- A non-empty digit run (with optional inner underscores) and its value. -/
def pyDigitsChars (l : List Char) : Option Nat := pyDigitsGo 0 false l

/-- Embedding of Python's `int(s)` in base 10: strip surrounding
whitespace, accept one optional leading `'+'` or `'-'`, then a digit run
(ASCII digits; CPython also accepts Unicode decimal digits, which this
embedding rejects — general failure theorems are therefore restricted to
ASCII input). -/
def pyIntChars (cs : List Char) : Option Int :=
  match stripIntChars cs with
  | '+' :: rest => (pyDigitsChars rest).map Int.ofNat
  | '-' :: rest => (pyDigitsChars rest).map (fun n => -(Int.ofNat n))
  | rest => (pyDigitsChars rest).map Int.ofNat

/-- The three failure modes of `_validate_ip_v4`, i.e. the three distinct
`ValueError` messages raised in `main.py` (wrong number of segments,
a segment `int()` cannot parse, a parsed value outside `[0, 255]`). -/
inductive ValidationError where
  | wrongSegmentCount (n : Nat)
  | nonNumericSegment (seg : String)
  | segmentOutOfRange (v : Int)
deriving DecidableEq, Repr

/-- The per-segment loop of `_validate_ip_v4`: parse each raw byte with
`int(...)`, raising on a parse failure, then range-check it, in order. -/
def parse_bytes : List (List Char) → Except ValidationError (List Int)
  | [] => .ok []
  | b :: rest =>
    match pyIntChars b with
    | none => .error (.nonNumericSegment ⟨b⟩)
    | some v =>
      if 0 ≤ v ∧ v ≤ 255 then
        match parse_bytes rest with
        | .error e => .error e
        | .ok vs => .ok (v :: vs)
      else .error (.segmentOutOfRange v)

/-- Embedding of `_validate_ip_v4` from `main.py`: strip, split on `'.'`,
require exactly 4 segments, parse and range-check each segment, and return
the canonical `'.'.join(map(str, parsed_bytes))`. -/
def _validate_ip_v4 (raw_ip_v4 : String) : Except ValidationError String :=
  let raw_bytes : List (List Char) := splitDot (stripChars raw_ip_v4.data)
  if raw_bytes.length ≠ 4 then
    .error (.wrongSegmentCount raw_bytes.length)
  else
    match parse_bytes raw_bytes with
    | .error e => .error e
    | .ok parsed_bytes => .ok ⟨joinDot (parsed_bytes.map (fun v => (toString v).data))⟩

/-- The segment list the validator works on (line 56 of `main.py`). -/
def segmentsOf (s : String) : List (List Char) := splitDot (stripChars s.data)

/-! ### The orchestration in `__main__` -/

/-- A hosted zone as returned by `list_hosted_zones_by_name`; `main.py`
only reads the `Name` and `Id` keys. -/
structure HostedZone where
  name : String
  id : String
deriving DecidableEq, Repr

/-- A resource record set as returned by `list_resource_record_sets`;
`main.py` only reads the `Name` key — the other fields are carried so that
theorems can quantify over them and show they are never consulted. -/
structure ResourceRecordSet where
  name : String
  rtype : String
  ttl : Nat
  values : List String
deriving DecidableEq, Repr

/-- The `RecordInfo` dataclass of `main.py`, with its defaults. -/
structure RecordInfo where
  target_hosted_zone_name : String
  target_record_set_name : String
  target_record_set_type : String := "A"
  target_record_set_ttl : Nat := 300
deriving DecidableEq, Repr

/-- The `ResourceRecordSet` dictionary passed to
`change_resource_record_sets`. -/
structure RecordSetReq where
  name : String
  rtype : String
  ttl : Nat
  resourceRecords : List String
deriving DecidableEq, Repr

/-- One element of the `Changes` list of the change batch. -/
structure Change where
  action : String
  resourceRecordSet : RecordSetReq
deriving DecidableEq, Repr

/-- The `ChangeBatch` dictionary. -/
structure ChangeBatch where
  changes : List Change
deriving DecidableEq, Repr

/-- One call to `change_resource_record_sets`, i.e. the arguments that
`update_route_53_record_set` sends to the provider. -/
structure UpsertCall where
  hostedZoneId : String
  changeBatch : ChangeBatch
deriving DecidableEq, Repr

/-- Embedding of `update_route_53_record_set`: the single UPSERT change
request it issues, as data. -/
def update_route_53_record_set (hosted_zone_id record_set_name record_set_type : String)
    (record_ttl : Nat) (record_set_value : String) : UpsertCall :=
  { hostedZoneId := hosted_zone_id,
    changeBatch :=
      { changes :=
          [{ action := "UPSERT",
             resourceRecordSet :=
               { name := record_set_name, rtype := record_set_type,
                 ttl := record_ttl, resourceRecords := [record_set_value] } }] } }

/-- The spec's error taxonomy (§7); each stage of the run fails with the
kind of error its external call raises in `main.py` (`ConfigError` for the
config files, `NetworkError` for the echo endpoint, `ValidationError` from
the validator, `NotFoundError` for the `StopIteration` of the zone lookup,
`ProviderError` for the Route 53 calls). -/
inductive RunError where
  | configError
  | networkError
  | validationError (e : ValidationError)
  | notFoundError
  | providerError
deriving DecidableEq, Repr

/-- The results of the external calls a single run can make: the two
config files, the echo endpoint body, the boto3 session constructor, the
zone listing, the per-zone record-set listing, and the upsert response. -/
structure Env where
  recordInfoResult : Except RunError RecordInfo
  echoResponse : Except RunError String
  sessionResult : Except RunError Unit
  hostedZonesResult : Except RunError (List HostedZone)
  recordSetsFor : String → Except RunError (List ResourceRecordSet)
  upsertResponse : Except RunError Unit

/-- Embedding of `get_public_ip_v4`: propagate a network failure, else
validate the raw response body. -/
def get_public_ip_v4 (response : Except RunError String) : Except RunError String :=
  match response with
  | .error e => .error e
  | .ok raw =>
    match _validate_ip_v4 raw with
    | .error ve => .error (.validationError ve)
    | .ok ip => .ok ip

/-- Embedding of the `try` body of `__main__`: the stages in program
order, returning the upsert calls issued and the first error raised, if
any.  The zone lookup is `next(filter(...))` (first match, `StopIteration`
when none); the record lookup is `next(filter(...), None)` (first match or
`None`, never an error); the upsert is issued before the provider's
response is known, so a failed upsert still appears in the call list. -/
def runStages (env : Env) : List UpsertCall × Option RunError :=
  match env.recordInfoResult with
  | .error e => ([], some e)
  | .ok record_info =>
    match get_public_ip_v4 env.echoResponse with
    | .error e => ([], some e)
    | .ok public_ip =>
      match env.sessionResult with
      | .error e => ([], some e)
      | .ok _ =>
        match env.hostedZonesResult with
        | .error e => ([], some e)
        | .ok hosted_zones =>
          match hosted_zones.find? (fun hz => hz.name == record_info.target_hosted_zone_name) with
          | none => ([], some RunError.notFoundError)
          | some target_hosted_zone =>
            match env.recordSetsFor target_hosted_zone.id with
            | .error e => ([], some e)
            | .ok target_hosted_zone_records =>
              let _target_record := target_hosted_zone_records.find?
                (fun r => r.name == record_info.target_record_set_name)
              let call := update_route_53_record_set target_hosted_zone.id
                record_info.target_record_set_name record_info.target_record_set_type
                record_info.target_record_set_ttl public_ip
              match env.upsertResponse with
              | .error e => ([call], some e)
              | .ok _ => ([call], none)

/-- The observable outcome of one run. -/
structure RunResult where
  criticalErrors : List RunError
  upsertCalls : List UpsertCall
  exitCode : Nat
deriving DecidableEq, Repr

/-- Embedding of `__main__`: run the stages inside the `try`; the
`except Exception` handler logs one critical entry and swallows the
exception, so the interpreter always exits with status 0 (there is no
`sys.exit` or re-raise in `main.py`). -/
def runMain (env : Env) : RunResult :=
  match runStages env with
  | (calls, none) => { criticalErrors := [], upsertCalls := calls, exitCode := 0 }
  | (calls, some e) => { criticalErrors := [e], upsertCalls := calls, exitCode := 0 }

/-! ### Helper lemmas: `dropWhile`, `stripChars` -/

theorem dropWhile_append_all {p : Char → Bool} (w cs : List Char)
    (hw : ∀ c ∈ w, p c = true) : (w ++ cs).dropWhile p = cs.dropWhile p := by
  induction w with
  | nil => rfl
  | cons a w ih =>
    simp only [List.cons_append, List.dropWhile_cons, hw a (by simp), if_true]
    exact ih fun c hc => hw c (by simp [hc])

theorem dropWhile_append_ne_nil {p : Char → Bool} (cs w : List Char)
    (h : cs.dropWhile p ≠ []) : (cs ++ w).dropWhile p = cs.dropWhile p ++ w := by
  induction cs with
  | nil => exact absurd rfl h
  | cons a cs ih =>
    cases hp : p a with
    | true =>
      simp only [List.cons_append, List.dropWhile_cons, hp, if_true]
      simp only [List.dropWhile_cons, hp, if_true] at h
      exact ih h
    | false =>
      simp only [List.cons_append, List.dropWhile_cons, hp, Bool.false_eq_true, if_false]

theorem dropWhile_eq_nil_of_all {p : Char → Bool} (cs : List Char)
    (h : ∀ c ∈ cs, p c = true) : cs.dropWhile p = [] := by
  induction cs with
  | nil => rfl
  | cons a cs ih =>
    simp only [List.dropWhile_cons, h a (by simp), if_true]
    exact ih fun c hc => h c (by simp [hc])

theorem dropWhile_eq_self_of_all {p : Char → Bool} (cs : List Char)
    (h : ∀ c ∈ cs, p c = false) : cs.dropWhile p = cs := by
  cases cs with
  | nil => rfl
  | cons a cs =>
    simp only [List.dropWhile_cons, h a (by simp), Bool.false_eq_true, if_false]

theorem mem_dropWhile_of_mem {p : Char → Bool} (c : Char) (cs : List Char)
    (hc : c ∈ cs) (hp : p c = false) : c ∈ cs.dropWhile p := by
  induction cs with
  | nil => cases hc
  | cons a cs ih =>
    cases hpa : p a with
    | true =>
      simp only [List.dropWhile_cons, hpa, if_true]
      rcases List.mem_cons.mp hc with rfl | hmem
      · rw [hpa] at hp; cases hp
      · exact ih hmem
    | false =>
      simp only [List.dropWhile_cons, hpa, Bool.false_eq_true, if_false]
      exact hc

theorem stripWith_eq_self (p : Char → Bool) (cs : List Char)
    (h : ∀ c ∈ cs, p c = false) : stripWith p cs = cs := by
  unfold stripWith
  rw [dropWhile_eq_self_of_all cs h,
    dropWhile_eq_self_of_all cs.reverse (fun c hc => h c (List.mem_reverse.mp hc)),
    List.reverse_reverse]

theorem stripWith_pad (p : Char → Bool) (w1 cs w2 : List Char)
    (hw1 : ∀ c ∈ w1, p c = true) (hw2 : ∀ c ∈ w2, p c = true) :
    stripWith p (w1 ++ cs ++ w2) = stripWith p cs := by
  unfold stripWith
  rw [List.append_assoc, dropWhile_append_all w1 (cs ++ w2) hw1]
  cases h : cs.dropWhile p with
  | nil =>
    have hcs : ∀ c ∈ cs, p c = true := by
      intro c hc
      by_contra hcon
      have : c ∈ cs.dropWhile p :=
        mem_dropWhile_of_mem c cs hc (Bool.eq_false_iff.mpr hcon)
      rw [h] at this; cases this
    rw [dropWhile_append_all cs w2 hcs, dropWhile_eq_nil_of_all w2 hw2]
  | cons d ds =>
    rw [dropWhile_append_ne_nil cs w2 (by rw [h]; exact List.cons_ne_nil d ds), h,
      List.reverse_append,
      dropWhile_append_all w2.reverse (d :: ds).reverse
        (fun c hc => hw2 c (List.mem_reverse.mp hc))]

theorem mem_stripWith_of_mem (p : Char → Bool) (c : Char) (cs : List Char)
    (hc : c ∈ cs) (hp : p c = false) : c ∈ stripWith p cs := by
  unfold stripWith
  rw [List.mem_reverse]
  apply mem_dropWhile_of_mem _ _ _ hp
  rw [List.mem_reverse]
  exact mem_dropWhile_of_mem c cs hc hp

theorem stripChars_eq_self (cs : List Char)
    (h : ∀ c ∈ cs, isPySpace c = false) : stripChars cs = cs :=
  stripWith_eq_self isPySpace cs h

theorem stripChars_pad (w1 cs w2 : List Char)
    (hw1 : ∀ c ∈ w1, isPySpace c = true) (hw2 : ∀ c ∈ w2, isPySpace c = true) :
    stripChars (w1 ++ cs ++ w2) = stripChars cs :=
  stripWith_pad isPySpace w1 cs w2 hw1 hw2

/-! ### Helper lemmas: `splitDot`, `joinDot` -/

theorem splitDot_ne_nil (cs : List Char) : splitDot cs ≠ [] := by
  cases cs with
  | nil => simp [splitDot]
  | cons c cs =>
    unfold splitDot
    split
    · simp
    · cases h : splitDot cs <;> simp

theorem splitDot_no_dot (cs : List Char) (h : '.' ∉ cs) : splitDot cs = [cs] := by
  induction cs with
  | nil => rfl
  | cons c cs ih =>
    unfold splitDot
    have hc : c ≠ '.' := by
      intro hc; exact h (by simp [hc])
    rw [if_neg hc, ih (fun hm => h (by simp [hm]))]

theorem splitDot_append_dot (a r : List Char) (h : '.' ∉ a) :
    splitDot (a ++ '.' :: r) = a :: splitDot r := by
  induction a with
  | nil => simp [splitDot]
  | cons c a ih =>
    have hc : c ≠ '.' := by
      intro hc; exact h (by simp [hc])
    rw [List.cons_append]
    conv_lhs => rw [splitDot]
    rw [if_neg hc, ih (fun hm => h (by simp [hm]))]

theorem splitDot_append_last_dot (xs : List Char) :
    splitDot (xs ++ ['.']) = splitDot xs ++ [[]] := by
  induction xs with
  | nil => simp [splitDot]
  | cons c xs ih =>
    rw [List.cons_append]
    by_cases hc : c = '.'
    · subst hc
      unfold splitDot
      rw [if_pos rfl, if_pos rfl, ih, List.cons_append]
    · unfold splitDot
      rw [if_neg hc, if_neg hc, ih]
      cases h : splitDot xs with
      | nil => exact absurd h (splitDot_ne_nil xs)
      | cons s rest => simp

theorem joinDot_cons_cons (a b : List Char) (l : List (List Char)) :
    joinDot (a :: b :: l) = a ++ '.' :: joinDot (b :: l) := rfl

theorem mem_joinDot (c : Char) (ds : List (List Char)) (hc : c ∈ joinDot ds) :
    c = '.' ∨ ∃ d ∈ ds, c ∈ d := by
  induction ds with
  | nil => cases hc
  | cons d ds ih =>
    cases ds with
    | nil =>
      right; exact ⟨d, by simp, hc⟩
    | cons d2 ds2 =>
      rw [joinDot_cons_cons] at hc
      rcases List.mem_append.mp hc with hd | hrest
      · right; exact ⟨d, by simp, hd⟩
      · rcases List.mem_cons.mp hrest with rfl | htail
        · left; rfl
        · rcases ih htail with hdot | ⟨d', hd', hc'⟩
          · left; exact hdot
          · right; exact ⟨d', by simp [hd'], hc'⟩

/-! ### Helper lemmas: `pyDigitsChars`, `pyIntChars`, decimal reprs -/

theorem pyDigitsGo_mem (l : List Char) : ∀ (acc : Nat) (prev : Bool) (n : Nat),
    pyDigitsGo acc prev l = some n → ∀ c ∈ l, c.isDigit = true ∨ c = '_' := by
  induction l with
  | nil => intro acc prev n _ c hc; cases hc
  | cons a l ih =>
    intro acc prev n h c hc
    simp only [pyDigitsGo] at h
    by_cases ha : a.isDigit = true
    · rw [if_pos ha] at h
      rcases List.mem_cons.mp hc with rfl | hm
      · exact Or.inl ha
      · exact ih _ _ _ h c hm
    · rw [if_neg ha] at h
      by_cases ha2 : a = '_' ∧ prev = true
      · rw [if_pos ha2] at h
        rcases List.mem_cons.mp hc with rfl | hm
        · exact Or.inr ha2.1
        · exact ih _ _ _ h c hm
      · rw [if_neg ha2] at h; cases h

theorem pyDigitsChars_mem (l : List Char) (n : Nat) (h : pyDigitsChars l = some n) :
    ∀ c ∈ l, c.isDigit = true ∨ c = '_' :=
  pyDigitsGo_mem l 0 false n h

theorem digit_ne_dot (c : Char) (h : c.isDigit = true) : c ≠ '.' := by
  intro hc
  rw [hc] at h
  exact absurd h (by decide)

theorem digit_ne_underscore_ne_dot (c : Char) (h : c.isDigit = true ∨ c = '_') : c ≠ '.' := by
  rcases h with h | h
  · exact digit_ne_dot c h
  · rw [h]; decide

theorem digit_not_space (c : Char) (h : c.isDigit = true) : isPySpace c = false := by
  cases hx : isPySpace c with
  | false => rfl
  | true =>
    exfalso
    have hmem : c ∈ pySpaceChars := of_decide_eq_true hx
    have hall : pySpaceChars.all (fun d => !d.isDigit) = true := by decide
    have hnd := List.all_eq_true.mp hall c hmem
    rw [h] at hnd
    exact absurd hnd (by decide)

set_option maxRecDepth 20000 in
/-- Decimal reprs of byte values round-trip through `int(...)`: for
`0 ≤ n ≤ 255`, the decimal repr of `n` is non-empty, all digits, and
parses back to `n`. -/
theorem repr_byte_facts : ∀ i : Fin 256,
    pyIntChars (toString ((i : Nat) : Int)).data = some ((i : Nat) : Int)
    ∧ (toString ((i : Nat) : Int)).data.all Char.isDigit = true
    ∧ (toString ((i : Nat) : Int)).data ≠ [] := by decide

theorem repr_facts_of_range (v : Int) (h0 : 0 ≤ v) (h255 : v ≤ 255) :
    pyIntChars (toString v).data = some v
    ∧ (toString v).data.all Char.isDigit = true
    ∧ (toString v).data ≠ [] := by
  obtain ⟨n, rfl⟩ := Int.eq_ofNat_of_zero_le h0
  have hn : n < 256 := by omega
  exact repr_byte_facts ⟨n, hn⟩

/-! ### Helper lemmas: `parse_bytes` and `_validate_ip_v4` -/

theorem parse_bytes_of_forall (bs : List (List Char)) (vs : List Int)
    (h : List.Forall₂ (fun b v => pyIntChars b = some v ∧ 0 ≤ v ∧ v ≤ 255) bs vs) :
    parse_bytes bs = .ok vs := by
  induction h with
  | nil => rfl
  | @cons b v bs vs hbv htail ih =>
    simp only [parse_bytes, hbv.1]
    rw [if_pos hbv.2, ih]

theorem parse_bytes_ok_forall (bs : List (List Char)) (vs : List Int)
    (h : parse_bytes bs = .ok vs) :
    List.Forall₂ (fun b v => pyIntChars b = some v ∧ 0 ≤ v ∧ v ≤ 255) bs vs := by
  induction bs generalizing vs with
  | nil =>
    simp only [parse_bytes] at h
    injection h with h'
    subst h'
    exact List.Forall₂.nil
  | cons b bs ih =>
    cases hb : pyIntChars b with
    | none => simp only [parse_bytes, hb] at h; cases h
    | some v =>
      simp only [parse_bytes, hb] at h
      by_cases hr : 0 ≤ v ∧ v ≤ 255
      · rw [if_pos hr] at h
        cases hp : parse_bytes bs with
        | error e => rw [hp] at h; cases h
        | ok vs' =>
          rw [hp] at h
          injection h with h'
          subst h'
          exact List.Forall₂.cons ⟨hb, hr⟩ (ih vs' hp)
      · rw [if_neg hr] at h; cases h

theorem parse_bytes_ok_exists (bs : List (List Char))
    (h : ∀ b ∈ bs, ∃ v, pyIntChars b = some v ∧ 0 ≤ v ∧ v ≤ 255) :
    ∃ vs, parse_bytes bs = .ok vs := by
  induction bs with
  | nil => exact ⟨[], rfl⟩
  | cons b bs ih =>
    obtain ⟨v, hv, hr⟩ := h b (by simp)
    obtain ⟨vs, hvs⟩ := ih (fun b' hb' => h b' (by simp [hb']))
    exact ⟨v :: vs, by simp only [parse_bytes, hv, hvs]; rw [if_pos hr]⟩

theorem parse_bytes_error_nonnum (bs : List (List Char)) (b : String)
    (h : parse_bytes bs = .error (.nonNumericSegment b)) :
    ∃ cs ∈ bs, (⟨cs⟩ : String) = b ∧ pyIntChars cs = none := by
  induction bs with
  | nil => simp only [parse_bytes] at h; cases h
  | cons x bs ih =>
    cases hx : pyIntChars x with
    | none =>
      simp only [parse_bytes, hx] at h
      injection h with h'
      injection h' with h''
      exact ⟨x, by simp, h'', hx⟩
    | some v =>
      simp only [parse_bytes, hx] at h
      by_cases hr : 0 ≤ v ∧ v ≤ 255
      · rw [if_pos hr] at h
        cases hp : parse_bytes bs with
        | error e =>
          rw [hp] at h
          injection h with h'
          subst h'
          obtain ⟨cs, hmem, hcs⟩ := ih hp
          exact ⟨cs, by simp [hmem], hcs⟩
        | ok vs' => rw [hp] at h; cases h
      · rw [if_neg hr] at h
        injection h with h'
        cases h'

theorem parse_bytes_error_range (bs : List (List Char)) (v : Int)
    (h : parse_bytes bs = .error (.segmentOutOfRange v)) :
    ∃ cs ∈ bs, pyIntChars cs = some v ∧ ¬(0 ≤ v ∧ v ≤ 255) := by
  induction bs with
  | nil => simp only [parse_bytes] at h; cases h
  | cons x bs ih =>
    cases hx : pyIntChars x with
    | none =>
      simp only [parse_bytes, hx] at h
      injection h with h'
      cases h'
    | some w =>
      simp only [parse_bytes, hx] at h
      by_cases hr : 0 ≤ w ∧ w ≤ 255
      · rw [if_pos hr] at h
        cases hp : parse_bytes bs with
        | error e =>
          rw [hp] at h
          injection h with h'
          subst h'
          obtain ⟨cs, hmem, hcs⟩ := ih hp
          exact ⟨cs, by simp [hmem], hcs⟩
        | ok vs' => rw [hp] at h; cases h
      · rw [if_neg hr] at h
        injection h with h'
        injection h' with h''
        subst h''
        exact ⟨x, by simp, hx, hr⟩

/-- Unfolding of `_validate_ip_v4` in terms of `segmentsOf`. -/
theorem validate_eq (s : String) :
    _validate_ip_v4 s =
      if (segmentsOf s).length ≠ 4 then
        .error (.wrongSegmentCount (segmentsOf s).length)
      else
        match parse_bytes (segmentsOf s) with
        | .error e => .error e
        | .ok vs => .ok ⟨joinDot (vs.map (fun v => (toString v).data))⟩ := rfl

/-- Inversion of a successful validation: four segments, a successful
parse, and the canonical re-serialization as output. -/
theorem validate_ok_inv (s out : String) (h : _validate_ip_v4 s = .ok out) :
    (segmentsOf s).length = 4 ∧
      ∃ vs, parse_bytes (segmentsOf s) = .ok vs ∧
        out = ⟨joinDot (vs.map (fun v => (toString v).data))⟩ := by
  rw [validate_eq] at h
  by_cases hlen : (segmentsOf s).length ≠ 4
  · rw [if_pos hlen] at h; cases h
  · rw [if_neg hlen] at h
    refine ⟨by omega, ?_⟩
    cases hp : parse_bytes (segmentsOf s) with
    | error e => rw [hp] at h; cases h
    | ok vs =>
      rw [hp] at h
      injection h with h'
      exact ⟨vs, rfl, h'.symm⟩

theorem forall₂_mem_left {α β : Type} {r : α → β → Prop} :
    ∀ {l1 : List α} {l2 : List β}, List.Forall₂ r l1 l2 →
      ∀ a ∈ l1, ∃ b ∈ l2, r a b := by
  intro l1 l2 h
  induction h with
  | nil => intro a ha; cases ha
  | cons h1 _ ih =>
    intro a ha
    rcases List.mem_cons.mp ha with rfl | hm
    · exact ⟨_, by simp, h1⟩
    · obtain ⟨b, hb, hr⟩ := ih a hm
      exact ⟨b, by simp [hb], hr⟩

theorem forall₂_mem_right {α β : Type} {r : α → β → Prop} :
    ∀ {l1 : List α} {l2 : List β}, List.Forall₂ r l1 l2 →
      ∀ b ∈ l2, ∃ a ∈ l1, r a b := by
  intro l1 l2 h
  induction h with
  | nil => intro b hb; cases hb
  | cons h1 _ ih =>
    intro b hb
    rcases List.mem_cons.mp hb with rfl | hm
    · exact ⟨_, by simp, h1⟩
    · obtain ⟨a, ha, hr⟩ := ih b hm
      exact ⟨a, by simp [ha], hr⟩

theorem length_eq_four {α : Type} (l : List α) (h : l.length = 4) :
    ∃ a b c d, l = [a, b, c, d] := by
  cases l with
  | nil => simp at h
  | cons a l =>
    cases l with
    | nil => simp at h
    | cons b l =>
      cases l with
      | nil => simp at h
      | cons c l =>
        cases l with
        | nil => simp at h
        | cons d l =>
          cases l with
          | nil => exact ⟨a, b, c, d, rfl⟩
          | cons e l => simp only [List.length_cons] at h; omega

theorem find_first_of_unique {α : Type} (p : α → Bool) (l : List α) (a : α)
    (ha : a ∈ l) (hpa : p a = true) (huniq : ∀ b ∈ l, p b = true → b = a) :
    l.find? p = some a := by
  induction l with
  | nil => cases ha
  | cons x l ih =>
    by_cases hx : p x = true
    · rw [List.find?_cons_of_pos _ hx, huniq x (by simp) hx]
    · rw [List.find?_cons_of_neg _ hx]
      rcases List.mem_cons.mp ha with rfl | hm
      · exact absurd hpa hx
      · exact ih hm (fun b hb hpb => huniq b (by simp [hb]) hpb)

/-- Every character of a string accepted by `int(...)` is, after
stripping, a digit, an underscore, or a sign. -/
theorem pyIntChars_mem (cs : List Char) (v : Int) (h : pyIntChars cs = some v) :
    ∀ c ∈ stripIntChars cs, c.isDigit = true ∨ c = '_' ∨ c = '+' ∨ c = '-' := by
  intro c hc
  unfold pyIntChars at h
  split at h
  next rest heq =>
    rw [heq] at hc
    rcases List.mem_cons.mp hc with rfl | hm
    · exact Or.inr (Or.inr (Or.inl rfl))
    · cases hd : pyDigitsChars rest with
      | none => rw [hd] at h; cases h
      | some n =>
        rcases pyDigitsChars_mem rest n hd c hm with h1 | h1
        · exact Or.inl h1
        · exact Or.inr (Or.inl h1)
  next rest heq =>
    rw [heq] at hc
    rcases List.mem_cons.mp hc with rfl | hm
    · exact Or.inr (Or.inr (Or.inr rfl))
    · cases hd : pyDigitsChars rest with
      | none => rw [hd] at h; cases h
      | some n =>
        rcases pyDigitsChars_mem rest n hd c hm with h1 | h1
        · exact Or.inl h1
        · exact Or.inr (Or.inl h1)
  next hne1 hne2 =>
    cases hd : pyDigitsChars (stripIntChars cs) with
    | none => rw [hd] at h; cases h
    | some n =>
      rcases pyDigitsChars_mem _ n hd c hc with h1 | h1
      · exact Or.inl h1
      · exact Or.inr (Or.inl h1)

/-! ### The claims -/

/-- Claim C1: the validator splits its input on `'.'` and fails with the
segment-count error unless exactly 4 segments result; with 4 segments it
succeeds exactly when every segment parses as a base-10 integer in
`[0, 255]`; a non-numeric failure always names a segment that `int(...)`
cannot parse, and an out-of-range failure always carries a parsed value
outside `[0, 255]`. -/
theorem claim_C1_validator_cases (s : String) :
    ((segmentsOf s).length ≠ 4 →
      _validate_ip_v4 s = .error (.wrongSegmentCount (segmentsOf s).length))
    ∧ ((∃ out, _validate_ip_v4 s = .ok out) ↔
        ((segmentsOf s).length = 4 ∧
          ∀ b ∈ segmentsOf s, ∃ v, pyIntChars b = some v ∧ 0 ≤ v ∧ v ≤ 255))
    ∧ (∀ b, _validate_ip_v4 s = .error (.nonNumericSegment b) →
        ∃ cs ∈ segmentsOf s, (⟨cs⟩ : String) = b ∧ pyIntChars cs = none)
    ∧ (∀ v, _validate_ip_v4 s = .error (.segmentOutOfRange v) →
        ∃ cs ∈ segmentsOf s, pyIntChars cs = some v ∧ ¬(0 ≤ v ∧ v ≤ 255)) := by
  refine ⟨?_, ⟨?_, ?_⟩, ?_, ?_⟩
  · intro hlen
    rw [validate_eq, if_pos hlen]
  · rintro ⟨out, hout⟩
    obtain ⟨hlen, vs, hvs, _⟩ := validate_ok_inv s out hout
    refine ⟨hlen, ?_⟩
    intro b hb
    obtain ⟨v, _, hr⟩ := forall₂_mem_left (parse_bytes_ok_forall _ _ hvs) b hb
    exact ⟨v, hr⟩
  · rintro ⟨hlen, hall⟩
    obtain ⟨vs, hvs⟩ := parse_bytes_ok_exists _ hall
    refine ⟨⟨joinDot (vs.map (fun v => (toString v).data))⟩, ?_⟩
    rw [validate_eq, if_neg (by omega)]
    simp only [hvs]
  · intro b h
    rw [validate_eq] at h
    by_cases hlen : (segmentsOf s).length ≠ 4
    · rw [if_pos hlen] at h
      injection h with h'
      cases h'
    · rw [if_neg hlen] at h
      cases hp : parse_bytes (segmentsOf s) with
      | error e =>
        rw [hp] at h
        injection h with h'
        subst h'
        exact parse_bytes_error_nonnum _ _ hp
      | ok vs => rw [hp] at h; cases h
  · intro v h
    rw [validate_eq] at h
    by_cases hlen : (segmentsOf s).length ≠ 4
    · rw [if_pos hlen] at h
      injection h with h'
      cases h'
    · rw [if_neg hlen] at h
      cases hp : parse_bytes (segmentsOf s) with
      | error e =>
        rw [hp] at h
        injection h with h'
        subst h'
        exact parse_bytes_error_range _ _ hp
      | ok vs => rw [hp] at h; cases h

/-- Witness for C1 at the concrete input `"1.2.3"`: three segments, so the
validator fails with the segment-count error. -/
theorem claim_C1_witness :
    _validate_ip_v4 "1.2.3" = .error (.wrongSegmentCount 3) :=
  (claim_C1_validator_cases "1.2.3").1 (by decide)

/-- Counterexample to claim C2 as stated: `"+1.2.3.4"` contains a segment
with a leading sign, yet validation succeeds with the canonical value
instead of failing with the non-numeric error, because Python's `int()`
tolerates one leading sign. -/
theorem claim_C2_counterexample :
    _validate_ip_v4 "+1.2.3.4" = .ok "1.2.3.4" := by decide

/-- Claim C2 (amended): segment parsing follows Python's `int()`: an
all-ASCII segment containing any character that is not a digit, an
underscore, a sign, or whitespace that `int()` tolerates (hex notation
included, and also the separator controls `\x1c`-`\x1f`) never parses —
but a single leading sign, surrounding whitespace, and single underscores
between digits are tolerated by the parse (`"+1"` parses as `1`; `"-1"`
parses as `-1` and then fails the range check, not the parse).  The
failure statement is scoped to ASCII segments because CPython's `int()`
additionally accepts Unicode decimal digits (`int('١') == 1`), which the
embedding does not model. -/
theorem claim_C2_amended_python_int :
    (∀ cs : List Char, (∀ c ∈ cs, c.toNat < 128) →
      (∃ c ∈ cs, c.isDigit = false ∧ c ≠ '_' ∧ c ≠ '+' ∧ c ≠ '-' ∧ isIntSpace c = false) →
      pyIntChars cs = none)
    ∧ _validate_ip_v4 "0x1.2.3.4" = .error (.nonNumericSegment "0x1")
    ∧ _validate_ip_v4 "+1.2.3.4" = .ok "1.2.3.4"
    ∧ _validate_ip_v4 "-1.2.3.4" = .error (.segmentOutOfRange (-1))
    ∧ _validate_ip_v4 "1_0.2.3.4" = .ok "10.2.3.4" := by
  refine ⟨?_, by decide, by decide, by decide, by decide⟩
  rintro cs _ ⟨c, hc, hdig, hund, hplus, hminus, hsp⟩
  cases hres : pyIntChars cs with
  | none => rfl
  | some v =>
    exfalso
    have hmem : c ∈ stripIntChars cs := mem_stripWith_of_mem isIntSpace c cs hc hsp
    rcases pyIntChars_mem cs v hres c hmem with h1 | h1 | h1 | h1
    · rw [hdig] at h1; cases h1
    · exact hund h1
    · exact hplus h1
    · exact hminus h1

/-- Witness for the amended C2 at the concrete segment `"0x1"`: it is all
ASCII and the character `'x'` is not a digit, underscore, sign, or
whitespace, so `int("0x1")` fails. -/
theorem claim_C2_amended_witness : pyIntChars ['0', 'x', '1'] = none :=
  claim_C2_amended_python_int.1 ['0', 'x', '1'] (by decide) ⟨'x', by decide, by decide⟩

/-- Claim C10: when the stripped input ends in a dot after three valid
segments, splitting yields four segments whose last is empty, so the
validator rejects it with the non-numeric (integer-parse) error, not the
segment-count error. -/
theorem claim_C10_trailing_dot (s : String) (cs b1 b2 b3 : List Char)
    (hs : stripChars s.data = cs ++ ['.'])
    (hsplit : splitDot cs = [b1, b2, b3])
    (h1 : ∃ v, pyIntChars b1 = some v ∧ 0 ≤ v ∧ v ≤ 255)
    (h2 : ∃ v, pyIntChars b2 = some v ∧ 0 ≤ v ∧ v ≤ 255)
    (h3 : ∃ v, pyIntChars b3 = some v ∧ 0 ≤ v ∧ v ≤ 255) :
    (segmentsOf s).length = 4 ∧
      _validate_ip_v4 s = .error (.nonNumericSegment "") := by
  have hsegs : segmentsOf s = [b1, b2, b3, []] := by
    unfold segmentsOf
    rw [hs, splitDot_append_last_dot, hsplit]
    rfl
  refine ⟨by rw [hsegs]; rfl, ?_⟩
  obtain ⟨v1, hv1, hr1⟩ := h1
  obtain ⟨v2, hv2, hr2⟩ := h2
  obtain ⟨v3, hv3, hr3⟩ := h3
  have hnil : pyIntChars ([] : List Char) = none := rfl
  rw [validate_eq, hsegs, if_neg (by simp)]
  simp only [parse_bytes, hv1, hv2, hv3, hnil, hr1.1, hr1.2, hr2.1, hr2.2, hr3.1, hr3.2,
    and_self, if_true]

/-- Witness for C10 at the concrete input `"1.2.3."`. -/
theorem claim_C10_witness :
    (segmentsOf "1.2.3.").length = 4 ∧
      _validate_ip_v4 "1.2.3." = .error (.nonNumericSegment "") :=
  claim_C10_trailing_dot "1.2.3." ['1', '.', '2', '.', '3'] ['1'] ['2'] ['3']
    (by decide) (by decide) ⟨1, by decide⟩ ⟨2, by decide⟩ ⟨3, by decide⟩

/-- Claim C6: on success the validator returns the canonical dot-joined
string reconstructed from the four parsed integers, so leading zeros are
normalized: `validate("01.02.03.04")` returns `"1.2.3.4"`, not the input
string. -/
theorem claim_C6_canonicalization :
    _validate_ip_v4 "01.02.03.04" = .ok "1.2.3.4"
    ∧ ("1.2.3.4" : String) ≠ "01.02.03.04"
    ∧ ∀ s out, _validate_ip_v4 s = .ok out →
        ∃ vs, parse_bytes (segmentsOf s) = .ok vs ∧ vs.length = 4 ∧
          out = ⟨joinDot (vs.map (fun v => (toString v).data))⟩ := by
  refine ⟨by decide, by decide, ?_⟩
  intro s out h
  obtain ⟨hlen, vs, hvs, hout⟩ := validate_ok_inv s out h
  have hlenv : vs.length = 4 := by
    have := List.Forall₂.length_eq (parse_bytes_ok_forall _ _ hvs)
    omega
  exact ⟨vs, hvs, hlenv, hout⟩

/-- Witness for C6 at the concrete input `"01.02.03.04"`. -/
theorem claim_C6_witness :
    ∃ vs, parse_bytes (segmentsOf "01.02.03.04") = .ok vs ∧ vs.length = 4 ∧
      ("1.2.3.4" : String) = ⟨joinDot (vs.map (fun v => (toString v).data))⟩ :=
  claim_C6_canonicalization.2.2 "01.02.03.04" "1.2.3.4" (by decide)

/-- Claim C7: the validator is idempotent on its range — whenever
`validate(x)` succeeds with output `y`, `validate(y)` succeeds and
returns `y` itself. -/
theorem claim_C7_idempotent (s out : String) (h : _validate_ip_v4 s = .ok out) :
    _validate_ip_v4 out = .ok out := by
  obtain ⟨hlen, vs, hvs, hout⟩ := validate_ok_inv s out h
  have hfa := parse_bytes_ok_forall _ _ hvs
  have hlenv : vs.length = 4 := by
    have := List.Forall₂.length_eq hfa
    omega
  have hrange : ∀ v ∈ vs, 0 ≤ v ∧ v ≤ 255 := by
    intro v hv
    obtain ⟨b, _, _, hr⟩ := forall₂_mem_right hfa v hv
    exact hr
  obtain ⟨v1, v2, v3, v4, rfl⟩ := length_eq_four vs hlenv
  have f1 := repr_facts_of_range v1 (hrange v1 (by simp)).1 (hrange v1 (by simp)).2
  have f2 := repr_facts_of_range v2 (hrange v2 (by simp)).1 (hrange v2 (by simp)).2
  have f3 := repr_facts_of_range v3 (hrange v3 (by simp)).1 (hrange v3 (by simp)).2
  have f4 := repr_facts_of_range v4 (hrange v4 (by simp)).1 (hrange v4 (by simp)).2
  set d1 := (toString v1).data with hd1
  set d2 := (toString v2).data with hd2
  set d3 := (toString v3).data with hd3
  set d4 := (toString v4).data with hd4
  have hdig : ∀ d ∈ [d1, d2, d3, d4], ∀ c ∈ d, c.isDigit = true := by
    intro d hd c hc
    simp only [List.mem_cons, List.not_mem_nil, or_false] at hd
    rcases hd with rfl | rfl | rfl | rfl
    · exact List.all_eq_true.mp f1.2.1 c hc
    · exact List.all_eq_true.mp f2.2.1 c hc
    · exact List.all_eq_true.mp f3.2.1 c hc
    · exact List.all_eq_true.mp f4.2.1 c hc
  have hnodot : ∀ d ∈ [d1, d2, d3, d4], '.' ∉ d := by
    intro d hd hmem
    exact digit_ne_dot '.' (hdig d hd '.' hmem) rfl
  have hjoin : joinDot [d1, d2, d3, d4] = d1 ++ '.' :: (d2 ++ '.' :: (d3 ++ '.' :: d4)) := rfl
  have houtdata : out.data = joinDot [d1, d2, d3, d4] := by
    rw [hout, hd1, hd2, hd3, hd4]
    rfl
  have hnospace : ∀ c ∈ out.data, isPySpace c = false := by
    intro c hc
    rw [houtdata] at hc
    rcases mem_joinDot c _ hc with rfl | ⟨d, hd, hcd⟩
    · decide
    · exact digit_not_space c (hdig d hd c hcd)
  have hsplit : splitDot (joinDot [d1, d2, d3, d4]) = [d1, d2, d3, d4] := by
    rw [hjoin,
      splitDot_append_dot d1 _ (hnodot d1 (by simp)),
      splitDot_append_dot d2 _ (hnodot d2 (by simp)),
      splitDot_append_dot d3 _ (hnodot d3 (by simp)),
      splitDot_no_dot d4 (hnodot d4 (by simp))]
  have hsegs : segmentsOf out = [d1, d2, d3, d4] := by
    unfold segmentsOf
    rw [stripChars_eq_self out.data hnospace, houtdata, hsplit]
  have hparse : parse_bytes [d1, d2, d3, d4] = .ok [v1, v2, v3, v4] := by
    apply parse_bytes_of_forall
    exact List.Forall₂.cons ⟨f1.1, (hrange v1 (by simp)).1, (hrange v1 (by simp)).2⟩
      (List.Forall₂.cons ⟨f2.1, (hrange v2 (by simp)).1, (hrange v2 (by simp)).2⟩
        (List.Forall₂.cons ⟨f3.1, (hrange v3 (by simp)).1, (hrange v3 (by simp)).2⟩
          (List.Forall₂.cons ⟨f4.1, (hrange v4 (by simp)).1, (hrange v4 (by simp)).2⟩
            List.Forall₂.nil)))
  rw [validate_eq, hsegs, if_neg (by simp)]
  simp only [hparse]
  rw [hout]

/-- Witness for C7: applying idempotence to the successful validation of
`"01.2.3.4"` shows `validate("1.2.3.4") = ok "1.2.3.4"`. -/
theorem claim_C7_witness : _validate_ip_v4 "1.2.3.4" = .ok "1.2.3.4" :=
  claim_C7_idempotent "01.2.3.4" "1.2.3.4" (by decide)

/-- Claim C8: surrounding whitespace is trimmed before validation: for
every input on which the validator succeeds, padding it with whitespace on
both sides leaves the resolver's validation step successful with the same
canonical output (the body is handled as plain text). -/
theorem claim_C8_resolver_trims (s out : String) (w1 w2 : List Char)
    (hw1 : ∀ c ∈ w1, isPySpace c = true) (hw2 : ∀ c ∈ w2, isPySpace c = true)
    (hok : _validate_ip_v4 s = .ok out) :
    get_public_ip_v4 (.ok ⟨w1 ++ s.data ++ w2⟩) = .ok out := by
  have hstrip : stripChars (w1 ++ s.data ++ w2) = stripChars s.data :=
    stripChars_pad w1 s.data w2 hw1 hw2
  have hval : _validate_ip_v4 ⟨w1 ++ s.data ++ w2⟩ = _validate_ip_v4 s := by
    rw [validate_eq, validate_eq]
    unfold segmentsOf
    rw [show (⟨w1 ++ s.data ++ w2⟩ : String).data = w1 ++ s.data ++ w2 from rfl, hstrip]
  simp only [get_public_ip_v4, hval, hok]

/-- Witness for C8: `" 1.2.3.4\n"` (a space before, a newline after)
validates to the canonical `"1.2.3.4"` inside the resolver. -/
theorem claim_C8_witness :
    get_public_ip_v4 (.ok ⟨[' '] ++ ("1.2.3.4" : String).data ++ ['\n']⟩) = .ok "1.2.3.4" :=
  claim_C8_resolver_trims "1.2.3.4" "1.2.3.4" [' '] ['\n']
    (by decide) (by decide) (by decide)

/-- A concrete run environment whose hosted-zone listing contains no zone
named `"example.com."`, the configured target. -/
def envZoneMissing : Env where
  recordInfoResult := .ok ⟨"example.com.", "host.example.com.", "A", 300⟩
  echoResponse := .ok "1.2.3.4"
  sessionResult := .ok ()
  hostedZonesResult := .ok [⟨"other.org.", "Z999"⟩]
  recordSetsFor := fun _ => .ok []
  upsertResponse := .ok ()

/-- Counterexample to claim C3 as stated: in the run `envZoneMissing` a
stage raises an error (the zone lookup), one critical entry is logged, yet
the process exit status is 0, not non-zero — the `except Exception`
handler in `main.py` swallows the exception without `sys.exit` or a
re-raise. -/
theorem claim_C3_counterexample :
    (runMain envZoneMissing).criticalErrors = [RunError.notFoundError]
    ∧ (runMain envZoneMissing).exitCode = 0 := by decide

/-- Claim C3 (amended): every run exits with status 0; a run in which some
stage raises an error emits exactly one critical log entry carrying that
error, and a fully successful run emits none. -/
theorem claim_C3_amended_exit_status (env : Env) :
    (runMain env).exitCode = 0
    ∧ (∀ e, (runStages env).2 = some e → (runMain env).criticalErrors = [e])
    ∧ ((runStages env).2 = none → (runMain env).criticalErrors = []) := by
  rcases h : runStages env with ⟨calls, err⟩
  cases err with
  | none =>
    refine ⟨by simp [runMain, h], ?_, ?_⟩
    · intro e he
      simp at he
    · intro _
      simp [runMain, h]
  | some e =>
    refine ⟨by simp [runMain, h], ?_, ?_⟩
    · intro e' he'
      simp at he'
      subst he'
      simp [runMain, h]
    · intro hnone
      simp at hnone

/-- Witness for the amended C3 at the concrete run `envZoneMissing`. -/
theorem claim_C3_amended_witness :
    (runMain envZoneMissing).exitCode = 0
    ∧ (runMain envZoneMissing).criticalErrors = [RunError.notFoundError] :=
  ⟨(claim_C3_amended_exit_status envZoneMissing).1,
   (claim_C3_amended_exit_status envZoneMissing).2.1 RunError.notFoundError (by decide)⟩

/-- Claim C4: when no listed hosted zone's `Name` equals the configured
`target_hosted_zone_name`, the zone lookup fails (the `StopIteration` of
`next(filter(...))`, the spec's `NotFoundError("hosted zone")`) and the
run aborts with no `change_resource_record_sets` call made. -/
theorem claim_C4_zone_not_found (env : Env) (ri : RecordInfo) (ip : String)
    (zones : List HostedZone)
    (h1 : env.recordInfoResult = .ok ri)
    (h2 : get_public_ip_v4 env.echoResponse = .ok ip)
    (h3 : env.sessionResult = .ok ())
    (h4 : env.hostedZonesResult = .ok zones)
    (h5 : ∀ hz ∈ zones, hz.name ≠ ri.target_hosted_zone_name) :
    (runMain env).criticalErrors = [RunError.notFoundError]
    ∧ (runMain env).upsertCalls = [] := by
  have hfind : zones.find? (fun hz => hz.name == ri.target_hosted_zone_name) = none := by
    rw [List.find?_eq_none]
    intro hz hmem
    simp [h5 hz hmem]
  have hstages : runStages env = ([], some RunError.notFoundError) := by
    simp only [runStages, h1, h2, h3, h4, hfind]
  exact ⟨by simp [runMain, hstages], by simp [runMain, hstages]⟩

/-- A second zone-missing environment, used to instantiate C4. -/
def envC4 : Env where
  recordInfoResult := .ok ⟨"example.com.", "host.example.com.", "A", 300⟩
  echoResponse := .ok "198.51.100.7"
  sessionResult := .ok ()
  hostedZonesResult := .ok [⟨"other.org.", "Z1"⟩, ⟨"example.com", "Z2"⟩]
  recordSetsFor := fun _ => .ok []
  upsertResponse := .ok ()

/-- Witness for C4: `envC4` lists two zones, neither named exactly
`"example.com."` (one differs only by the trailing dot), so the run aborts
with no upsert. -/
theorem claim_C4_witness :
    (runMain envC4).criticalErrors = [RunError.notFoundError]
    ∧ (runMain envC4).upsertCalls = [] :=
  claim_C4_zone_not_found envC4
    ⟨"example.com.", "host.example.com.", "A", 300⟩
    "198.51.100.7"
    [⟨"other.org.", "Z1"⟩, ⟨"example.com", "Z2"⟩]
    rfl (by decide) rfl rfl (by decide)

/-- Claim C5: when exactly one listed zone matches the configured zone
name and no record set matches the configured record name, the record
lookup returns `None` (absent), this raises no error, and the upsert is
still invoked exactly once against that zone's ID with the resolved IP as
the record value. -/
theorem claim_C5_absent_record (env : Env) (ri : RecordInfo) (ip : String)
    (zones : List HostedZone) (z : HostedZone) (records : List ResourceRecordSet)
    (h1 : env.recordInfoResult = .ok ri)
    (h2 : get_public_ip_v4 env.echoResponse = .ok ip)
    (h3 : env.sessionResult = .ok ())
    (h4 : env.hostedZonesResult = .ok zones)
    (h5 : z ∈ zones) (h6 : z.name = ri.target_hosted_zone_name)
    (h7 : ∀ z' ∈ zones, z'.name = ri.target_hosted_zone_name → z' = z)
    (h8 : env.recordSetsFor z.id = .ok records)
    (h9 : ∀ r ∈ records, r.name ≠ ri.target_record_set_name)
    (h10 : env.upsertResponse = .ok ()) :
    records.find? (fun r => r.name == ri.target_record_set_name) = none
    ∧ (runMain env).criticalErrors = []
    ∧ (runMain env).upsertCalls =
        [update_route_53_record_set z.id ri.target_record_set_name
          ri.target_record_set_type ri.target_record_set_ttl ip] := by
  have hfz : zones.find? (fun hz => hz.name == ri.target_hosted_zone_name) = some z :=
    find_first_of_unique _ zones z h5 (by simp [h6])
      (fun b hb hpb => h7 b hb (by simpa using hpb))
  have hfr : records.find? (fun r => r.name == ri.target_record_set_name) = none := by
    rw [List.find?_eq_none]
    intro r hr
    simp [h9 r hr]
  have hstages : runStages env =
      ([update_route_53_record_set z.id ri.target_record_set_name
        ri.target_record_set_type ri.target_record_set_ttl ip], none) := by
    simp only [runStages, h1, h2, h3, h4, hfz, h8, h10]
  exact ⟨hfr, by simp [runMain, hstages], by simp [runMain, hstages]⟩

/-- A run environment with exactly one matching zone and no matching
record set, used to instantiate C5. -/
def envC5 : Env where
  recordInfoResult := .ok ⟨"example.com.", "host.example.com.", "A", 300⟩
  echoResponse := .ok "203.0.113.7"
  sessionResult := .ok ()
  hostedZonesResult := .ok [⟨"example.com.", "Z42"⟩]
  recordSetsFor := fun _ => .ok [⟨"www.example.com.", "A", 60, ["198.51.100.1"]⟩]
  upsertResponse := .ok ()

/-- Witness for C5 at the concrete run `envC5`. -/
theorem claim_C5_witness :
    ([⟨"www.example.com.", "A", 60, ["198.51.100.1"]⟩] : List ResourceRecordSet).find?
      (fun r => r.name == "host.example.com.") = none
    ∧ (runMain envC5).criticalErrors = []
    ∧ (runMain envC5).upsertCalls =
        [update_route_53_record_set "Z42" "host.example.com." "A" 300 "203.0.113.7"] :=
  claim_C5_absent_record envC5
    ⟨"example.com.", "host.example.com.", "A", 300⟩
    "203.0.113.7"
    [⟨"example.com.", "Z42"⟩] ⟨"example.com.", "Z42"⟩
    [⟨"www.example.com.", "A", 60, ["198.51.100.1"]⟩]
    rfl (by decide) rfl rfl (by decide) rfl (by decide) rfl (by decide) rfl

/-- Claim C9: every invocation of the upsert operation issues exactly one
UPSERT change request containing exactly one change with exactly one
resource record holding exactly one value, and once the run reaches the
record stage the upsert is issued unconditionally — for any record-set
listing whatsoever, with no comparison against any existing value. -/
theorem claim_C9_single_upsert :
    (∀ zid n t ttl v, update_route_53_record_set zid n t ttl v =
      ⟨zid, ⟨[⟨"UPSERT", ⟨n, t, ttl, [v]⟩⟩]⟩⟩)
    ∧ (∀ (env : Env) (ri : RecordInfo) (ip : String) (zones : List HostedZone)
        (z : HostedZone) (records : List ResourceRecordSet),
        env.recordInfoResult = .ok ri →
        get_public_ip_v4 env.echoResponse = .ok ip →
        env.sessionResult = .ok () →
        env.hostedZonesResult = .ok zones →
        zones.find? (fun hz => hz.name == ri.target_hosted_zone_name) = some z →
        env.recordSetsFor z.id = .ok records →
        (runMain env).upsertCalls =
          [update_route_53_record_set z.id ri.target_record_set_name
            ri.target_record_set_type ri.target_record_set_ttl ip]) := by
  refine ⟨fun _ _ _ _ _ => rfl, ?_⟩
  intro env ri ip zones z records h1 h2 h3 h4 h5 h6
  cases hup : env.upsertResponse with
  | error e =>
    have hstages : runStages env =
        ([update_route_53_record_set z.id ri.target_record_set_name
          ri.target_record_set_type ri.target_record_set_ttl ip], some e) := by
      simp only [runStages, h1, h2, h3, h4, h5, h6, hup]
    simp [runMain, hstages]
  | ok u =>
    cases u
    have hstages : runStages env =
        ([update_route_53_record_set z.id ri.target_record_set_name
          ri.target_record_set_type ri.target_record_set_ttl ip], none) := by
      simp only [runStages, h1, h2, h3, h4, h5, h6, hup]
    simp [runMain, hstages]

/-- An environment whose target record already exists with a different
value, used to instantiate C9 (the upsert is issued anyway). -/
def envC9 : Env where
  recordInfoResult := .ok ⟨"example.com.", "host.example.com.", "A", 300⟩
  echoResponse := .ok "192.0.2.55"
  sessionResult := .ok ()
  hostedZonesResult := .ok [⟨"example.com.", "Z7"⟩]
  recordSetsFor := fun _ => .ok [⟨"host.example.com.", "A", 300, ["192.0.2.54"]⟩]
  upsertResponse := .ok ()

/-- Witness for C9 at the concrete run `envC9`: the record exists with an
old value and the single-change UPSERT is issued regardless. -/
theorem claim_C9_witness :
    (runMain envC9).upsertCalls =
      [update_route_53_record_set "Z7" "host.example.com." "A" 300 "192.0.2.55"] :=
  claim_C9_single_upsert.2 envC9
    ⟨"example.com.", "host.example.com.", "A", 300⟩
    "192.0.2.55"
    [⟨"example.com.", "Z7"⟩] ⟨"example.com.", "Z7"⟩
    [⟨"host.example.com.", "A", 300, ["192.0.2.54"]⟩]
    rfl (by decide) rfl rfl (by decide) rfl

end AwsDynDns
